import Mathlib

/-!
Shallow embedding of the CH32 CAN driver (`src/can/can.rs`) and the parts of
its data model that the driver's public operations depend on.

The repository ships only `can.rs`; the sibling modules it uses
(`util::calc_can_timings`, `Registers`, `CanFrame`, `CanFilter`, the enums)
are declared elsewhere in the crate and are not part of the sources here, so
those are modelled from the specification's description of them and are each
marked `Modelled from the spec:` in their doc comment.  Everything in the
`Can` namespace below is translated directly from `can.rs`.

Machine integers are modelled as `Nat`; the target is a 32-bit RISC-V
microcontroller, so `usize::MAX` is `2 ^ 32 - 1`.
-/

namespace Ch32Can

/-- `usize::MAX` on the 32-bit RISC-V target. -/
def USIZE_MAX : Nat := 2 ^ 32 - 1

/-! ## Bit timing parameters and the bit-timing calculator -/

/-- Bit-timing register fields produced by the calculator: prescaler,
time-segment-1 length, time-segment-2 length, synchronization jump width
(all in time quanta). -/
structure BitTimings where
  prescaler : Nat
  seg1 : Nat
  seg2 : Nat
  sjw : Nat
deriving DecidableEq, Repr

/-- Hardware range caps used by the calculator (conventional bxCAN-style
limits: seg1 in 1..16 quanta, seg2 in 1..8 quanta, prescaler in 1..1024,
synchronization jump width capped at 4 quanta). -/
def SEG1_MAX : Nat := 16

/-- Maximum time-segment-2 length in quanta. -/
def SEG2_MAX : Nat := 8

/-- Maximum prescaler value. -/
def PRESCALER_MAX : Nat := 1024

/-- Hardware cap on the synchronization jump width. -/
def SJW_CAP : Nat := 4

/-- Target sample-point location, in permill of the bit time. -/
def SAMPLE_TARGET_PERMILL : Nat := 875

/-- The exactness-and-range contract on a timing solution:
`clock == bitrate * prescaler * (1 + seg1 + seg2)` with each field inside its
hardware-imposed range.  (The synchronization jump width is derived, not
constrained by the contract.) -/
def timingValid (clock bitrate : Nat) (t : BitTimings) : Prop :=
  clock = bitrate * t.prescaler * (1 + t.seg1 + t.seg2) ∧
  1 ≤ t.prescaler ∧ t.prescaler ≤ PRESCALER_MAX ∧
  1 ≤ t.seg1 ∧ t.seg1 ≤ SEG1_MAX ∧
  1 ≤ t.seg2 ∧ t.seg2 ≤ SEG2_MAX

instance timingValidDec (clock bitrate : Nat) (t : BitTimings) :
    Decidable (timingValid clock bitrate t) := by
  unfold timingValid; infer_instance

/-- Total quanta per bit of a candidate. -/
def quantaOf (t : BitTimings) : Nat := 1 + t.seg1 + t.seg2

/-- Sample-point location of a candidate, in permill of the bit time:
`1000 * (1 + seg1) / (1 + seg1 + seg2)`. -/
def samplePermill (t : BitTimings) : Nat :=
  1000 * (1 + t.seg1) / quantaOf t

/-- Distance of a candidate's sample point from the target ratio. -/
def sampleDist (t : BitTimings) : Nat :=
  max (samplePermill t) SAMPLE_TARGET_PERMILL -
    min (samplePermill t) SAMPLE_TARGET_PERMILL

/-- All (seg1, seg2) splits of a fixed quanta count `q` for prescaler `p`
that keep both segments inside the hardware ranges; the synchronization jump
width is the minimum of seg2 and the hardware cap. -/
def splitCandidates (p q : Nat) : List BitTimings :=
  (List.range (q + 1)).filterMap fun s1 =>
    if 1 ≤ s1 ∧ s1 ≤ SEG1_MAX ∧ 1 ≤ q - 1 - s1 ∧ q - 1 - s1 ≤ SEG2_MAX ∧
        1 + s1 + (q - 1 - s1) = q then
      some ⟨p, s1, q - 1 - s1, min (q - 1 - s1) SJW_CAP⟩
    else
      none

/-- Candidates for one total-quanta count `q`: feasible only when `bitrate * q`
divides `clock` exactly, which determines the prescaler. -/
def quantaCandidates (clock bitrate q : Nat) : List BitTimings :=
  let p := clock / (bitrate * q)
  if bitrate * p * q = clock ∧ 1 ≤ p ∧ p ≤ PRESCALER_MAX then
    splitCandidates p q
  else
    []

/-- Every candidate within all supported ranges, enumerated over the feasible
total-quanta counts (at most `1 + SEG1_MAX + SEG2_MAX = 25`). -/
def allCandidates (clock bitrate : Nat) : List BitTimings :=
  (List.range (1 + SEG1_MAX + SEG2_MAX + 1)).flatMap (quantaCandidates clock bitrate)

/-- Preference order between candidates: smaller sample-point distance to the
target ratio wins; ties are broken by fewer quanta. -/
def betterCandidate (a b : BitTimings) : Bool :=
  decide (sampleDist a < sampleDist b ∨
    (sampleDist a = sampleDist b ∧ quantaOf a < quantaOf b))

/-- Select the preferred candidate from a list (none when the list is empty). -/
def pickBest : List BitTimings → Option BitTimings
  | [] => none
  | t :: ts => some (ts.foldl (fun acc c => if betterCandidate c acc then c else acc) t)

/-- Modelled from the spec: `util::calc_can_timings`, whose source is not part
of the sources here.  "Enumerate feasible total-time-quanta counts that evenly
divide the clock/bitrate ratio, then for each choose a (seg1, seg2) split that
lands the sample point closest to a target ratio, preferring the split
requiring the fewest quanta if multiple ties occur.  If no integer solution
exists within all supported ranges, the calculator reports failure.
Synchronization jump width is derived as the minimum of seg2 and a hardware
cap." -/
def calc_can_timings (clock bitrate : Nat) : Option BitTimings :=
  pickBest (allCandidates clock bitrate)

/-! ## Enums (`super::enums`, modelled from the spec) -/

/-- Modelled from the spec: the receive FIFO selector, "target FIFO ∈ {0,1}". -/
inductive CanFifo
  | fifo0
  | fifo1
deriving DecidableEq, Repr

/-- Numeric value of the FIFO selector (`CanFifo::val`). -/
def CanFifo.val : CanFifo → Nat
  | .fifo0 => 0
  | .fifo1 => 1

/-- Boolean value of the FIFO selector (`CanFifo::val_bool`), used for the
filter-association bit. -/
def CanFifo.val_bool : CanFifo → Bool
  | .fifo0 => false
  | .fifo1 => true

/-- Modelled from the spec: the operating mode, "normal vs loopback/silent". -/
inductive CanMode
  | normal
  | loopback
  | silent
deriving DecidableEq, Repr

/-- Construction error type (`CanInitError` in `can.rs`): `InvalidTimings` is
its only variant. -/
inductive CanInitError
  | invalidTimings
deriving DecidableEq, Repr

/-- Modelled from the spec: the hard-error kind carried by the non-blocking
result type; no public operation of this driver ever constructs one. -/
inductive CanError
  | hardwareFault
deriving DecidableEq, Repr

/-- The non-blocking result type `nb::Result<A, E> = Result<A, nb::Error<E>>`
with `nb::Error<E> = WouldBlock | Other(E)`, flattened. -/
inductive NbResult (A E : Type)
  | ok (a : A)
  | wouldBlock
  | hardError (e : E)
deriving DecidableEq, Repr

/-- Transmit status values, from the spec's interface list:
{pending, transmitted-ok, arbitration-lost, transmit-error, other-error}. -/
inductive TxStatus
  | pending
  | transmitted
  | arbitrationLost
  | transmitError
  | otherError
deriving DecidableEq, Repr

/-! ## Frames (`CanFrame`, modelled from the spec) -/

/-- Modelled from the spec: a CAN frame — standard 11-bit identifier, data
length code, payload bytes. -/
structure CanFrame where
  id : Nat
  dlc : Nat
  data : List Nat
deriving DecidableEq, Repr

/-- Modelled from the spec: `CanFrame::new_from_data_registers` — "high word
and low word combined into a single 64-bit payload view, then sliced to `dlc`
bytes".  Byte `i` of the 64-bit little-endian view is `data64 / 2^(8*i) % 256`. -/
def CanFrame.new_from_data_registers (id : Nat) (data64 : Nat) (dlc : Nat) : CanFrame :=
  ⟨id, dlc, (List.range dlc).map fun i => data64 / 2 ^ (8 * i) % 256⟩

/-! ## The driver handle -/

/-- The `Can` handle struct from `can.rs`: the bound receive FIFO and the
`last_mailbox_used` bookkeeping field.  (`_peri` is the zero-sized ownership
token and carries no state.) -/
structure CanHandle where
  fifo : CanFifo
  last_mailbox_used : Nat
deriving DecidableEq, Repr

/-! ## Transmit mailboxes (`Registers`, modelled from the spec) -/

/-- One hardware transmit mailbox: its empty flag, its transmit-request flag,
and the frame it holds. -/
structure Mailbox where
  isEmpty : Bool
  txRequest : Bool
  frame : Option CanFrame
deriving DecidableEq, Repr

/-- The fixed pool of 3 hardware transmit mailboxes. -/
structure TxRegs where
  mb0 : Mailbox
  mb1 : Mailbox
  mb2 : Mailbox
deriving DecidableEq, Repr

/-- Mailbox of the pool at an index. -/
def TxRegs.mailbox (r : TxRegs) : Nat → Mailbox
  | 0 => r.mb0
  | 1 => r.mb1
  | _ => r.mb2

/-- Modelled from the spec: `Registers::find_free_mailbox` — "scan the fixed
mailbox pool for one reporting Empty". -/
def find_free_mailbox (r : TxRegs) : Option Nat :=
  if r.mb0.isEmpty then some 0
  else if r.mb1.isEmpty then some 1
  else if r.mb2.isEmpty then some 2
  else none

/-- Modelled from the spec: `Registers::write_frame_mailbox` — "write the
frame into it and request transmission". -/
def write_frame_mailbox (r : TxRegs) (n : Nat) (f : CanFrame) : TxRegs :=
  let written : Mailbox := ⟨false, true, some f⟩
  match n with
  | 0 => { r with mb0 := written }
  | 1 => { r with mb1 := written }
  | _ => { r with mb2 := written }

/-! ## Receive FIFO registers -/

/-- The register view of one receive FIFO's head slot plus its pending-message
counter `FMP`: `RFIFOx.FMP`, `RXMIR.STID`, `RXMDTR.DLC`, `RXMDHR`, `RXMDLR`. -/
structure RxFifoRegs where
  fmp : Nat
  stid : Nat
  dlc : Nat
  rxmdhr : Nat
  rxmdlr : Nat
deriving DecidableEq, Repr

/-- Both hardware receive FIFOs. -/
structure RxRegs where
  f0 : RxFifoRegs
  f1 : RxFifoRegs
deriving DecidableEq, Repr

/-- FIFO register block selected by index (`can.rfifo(n)` etc.). -/
def RxRegs.rfifo (r : RxRegs) (n : Nat) : RxFifoRegs :=
  if n = 0 then r.f0 else r.f1

/-- Register accesses performed by `try_recv`, in program order. -/
inductive RxEvent
  | readFmp
  | readDlc
  | readStid
  | readDhr
  | readDlr
  | writeRfom
deriving DecidableEq, Repr

/-! ## Filters (`CanFilter` modelled from the spec; `add_filter` from `can.rs`) -/

/-- Modelled from the spec: a filter definition — bank index, bit mode (32-bit
vs 16-bit, as its scale-configuration bit), match mode (mask vs list, as its
mode bit), identifier value and identifier mask. -/
structure CanFilter where
  bank : Nat
  bitModeBit : Bool
  modeBit : Bool
  id_value : Nat
  id_mask : Nat
deriving DecidableEq, Repr

/-- Modelled from the spec: "Each filter bank consists of 2 32-bit registers
CAN_FxR0 and CAN_FxR1" — the identifier-value register of bank `b` is `2*b`. -/
def CanFilter.fr_id_value_reg (f : CanFilter) : Nat := 2 * f.bank

/-- The identifier-mask register of bank `b` is `2*b + 1`. -/
def CanFilter.fr_id_mask_reg (f : CanFilter) : Nat := 2 * f.bank + 1

/-- The filter-bank register file: the global filter-init flag `FCTLR.FINIT`,
per-bank scale bits `FSCFGR.FSC`, the `FxRy` id registers, per-bank mode bits
`FMCFGR.FBM`, per-bank FIFO association `FAFIFOR.FFA`, per-bank activation
`FWR.FACT`. -/
structure FilterRegs where
  finit : Bool
  fsc : Nat → Bool
  fr : Nat → Nat
  fbm : Nat → Bool
  ffa : Nat → Bool
  fact : Nat → Bool

/-- Register writes performed by `add_filter`, in program order. -/
inductive FilterEvent
  | setFinit (b : Bool)
  | setScale (bank : Nat) (b : Bool)
  | writeFr (reg : Nat) (v : Nat)
  | setMode (bank : Nat) (b : Bool)
  | setFifoAssoc (bank : Nat) (b : Bool)
  | setActive (bank : Nat) (b : Bool)
deriving DecidableEq, Repr

/-- Pointwise update of a `Nat`-indexed register field. -/
def updAt {α : Type} (g : Nat → α) (i : Nat) (v : α) : Nat → α :=
  fun j => if j = i then v else g j

namespace Can

/-- `Can::transmit` from `can.rs`: find a free mailbox; if none, report
`WouldBlock`; otherwise write the frame into it and return `Ok(None)`.  The
method takes `&self`, so the handle is returned unchanged. -/
def transmit (h : CanHandle) (regs : TxRegs) (f : CanFrame) :
    NbResult (Option CanFrame) CanError × TxRegs × CanHandle :=
  match find_free_mailbox regs with
  | none => (.wouldBlock, regs, h)
  | some n => (.ok none, write_frame_mailbox regs n f, h)

/-- `Can::transmit_status` from `can.rs`: a stale index (`> 2`) short-circuits
to `OtherError`; otherwise the hardware status of the recorded mailbox is
read.  `Registers::transmit_status` is not part of the sources here, so the
hardware read is a parameter `hw`. -/
def transmit_status (h : CanHandle) (hw : Nat → TxStatus) : TxStatus :=
  if h.last_mailbox_used > 2 then .otherError
  else hw h.last_mailbox_used

/-- `Can::try_recv` from `can.rs`, instrumented with its register-access
trace: read the pending count of the bound FIFO; if zero, `WouldBlock`;
otherwise read DLC, identifier and both data words of the head slot, assemble
the frame, then issue the release-one-message command `RFOM`. -/
def try_recv (h : CanHandle) (rx : RxRegs) :
    NbResult CanFrame CanError × List RxEvent :=
  let fifo := h.fifo.val
  if (rx.rfifo fifo).fmp = 0 then
    (.wouldBlock, [.readFmp])
  else
    let dlc := (rx.rfifo fifo).dlc
    let raw_id := (rx.rfifo fifo).stid
    let frame_data_unordered : Nat :=
      (rx.rfifo fifo).rxmdhr * 2 ^ 32 + (rx.rfifo fifo).rxmdlr
    let frame := CanFrame.new_from_data_registers raw_id frame_data_unordered dlc
    (.ok frame, [.readFmp, .readDlc, .readStid, .readDhr, .readDlr, .writeRfom])

/-- `Can::add_filter` from `can.rs`, instrumented with its register-write
trace: enable filter init mode, set the bank's scale configuration, write the
bank's id-value and id-mask registers, set the bank's operating mode,
associate the bank with the handle's FIFO, activate the bank, exit filter
init mode. -/
def add_filter (h : CanHandle) (r : FilterRegs) (filter : CanFilter) :
    FilterRegs × List FilterEvent :=
  let r1 := { r with finit := true }
  let r2 := { r1 with fsc := updAt r1.fsc filter.bank filter.bitModeBit }
  let r3 := { r2 with fr := updAt r2.fr filter.fr_id_value_reg filter.id_value }
  let r4 := { r3 with fr := updAt r3.fr filter.fr_id_mask_reg filter.id_mask }
  let r5 := { r4 with fbm := updAt r4.fbm filter.bank filter.modeBit }
  let r6 := { r5 with ffa := updAt r5.ffa filter.bank h.fifo.val_bool }
  let r7 := { r6 with fact := updAt r6.fact filter.bank true }
  let r8 := { r7 with finit := false }
  (r8,
    [.setFinit true,
     .setScale filter.bank filter.bitModeBit,
     .writeFr filter.fr_id_value_reg filter.id_value,
     .writeFr filter.fr_id_mask_reg filter.id_mask,
     .setMode filter.bank filter.modeBit,
     .setFifoAssoc filter.bank h.fifo.val_bool,
     .setActive filter.bank true,
     .setFinit false])

end Can

/-! ## Construction (`Can::new`) -/

/-- The peripheral's mode state observed by construction: whether it is in
Initialization mode, and the timing/mode configuration written while there. -/
structure InitState where
  initMode : Bool
  timings : Option BitTimings
  opMode : Option CanMode
deriving DecidableEq, Repr

/-- Mode-controller steps performed by `Can::new`, in program order. -/
inductive InitEvent
  | enterInit
  | setBitTimingAndMode (t : BitTimings) (m : CanMode)
  | leaveInit
deriving DecidableEq, Repr

namespace Can

/-- `Can::new` from `can.rs` (the peripheral-enable and GPIO pin-mode calls
are delegated to out-of-scope collaborators and carry no CAN state): build
the handle with `last_mailbox_used = usize::MAX`, enter Initialization mode,
compute bit timings — failing with `InvalidTimings` when the calculator finds
no solution — write timing and operating mode, leave Initialization mode. -/
def new (clock bitrate : Nat) (fifo : CanFifo) (mode : CanMode) (s : InitState) :
    Except CanInitError CanHandle × InitState × List InitEvent :=
  let this : CanHandle := { fifo := fifo, last_mailbox_used := USIZE_MAX }
  let s1 := { s with initMode := true }
  match calc_can_timings clock bitrate with
  | none => (.error .invalidTimings, s1, [.enterInit])
  | some t =>
    let s2 := { s1 with timings := some t, opMode := some mode }
    let s3 := { s2 with initMode := false }
    (.ok this, s3, [.enterInit, .setBitTimingAndMode t mode, .leaveInit])

end Can

/-! ## Lemmas about the bit-timing calculator -/

/-- The canonical candidate with the same segments as `t` and the derived
synchronization jump width. -/
def canonicalOf (t : BitTimings) : BitTimings :=
  ⟨t.prescaler, t.seg1, t.seg2, min t.seg2 SJW_CAP⟩

theorem mem_splitCandidates_sound {p q : Nat} {t : BitTimings}
    (h : t ∈ splitCandidates p q) :
    t.prescaler = p ∧ 1 + t.seg1 + t.seg2 = q ∧
      1 ≤ t.seg1 ∧ t.seg1 ≤ SEG1_MAX ∧ 1 ≤ t.seg2 ∧ t.seg2 ≤ SEG2_MAX := by
  unfold splitCandidates at h
  obtain ⟨s1, _, hg⟩ := List.mem_filterMap.mp h
  by_cases hc : 1 ≤ s1 ∧ s1 ≤ SEG1_MAX ∧ 1 ≤ q - 1 - s1 ∧ q - 1 - s1 ≤ SEG2_MAX ∧
      1 + s1 + (q - 1 - s1) = q
  · rw [if_pos hc] at hg
    obtain ⟨h1, h2, h3, h4, h5⟩ := hc
    cases hg
    exact ⟨rfl, h5, h1, h2, h3, h4⟩
  · rw [if_neg hc] at hg
    exact absurd hg (by simp)

theorem mem_splitCandidates_complete {p q : Nat} (t : BitTimings)
    (hp : t.prescaler = p) (hq : 1 + t.seg1 + t.seg2 = q)
    (h1 : 1 ≤ t.seg1) (h2 : t.seg1 ≤ SEG1_MAX)
    (h3 : 1 ≤ t.seg2) (h4 : t.seg2 ≤ SEG2_MAX) :
    canonicalOf t ∈ splitCandidates p q := by
  unfold splitCandidates
  refine List.mem_filterMap.mpr ⟨t.seg1, List.mem_range.mpr (by omega), ?_⟩
  have hs2 : q - 1 - t.seg1 = t.seg2 := by omega
  rw [if_pos (by omega)]
  rw [hs2, canonicalOf, hp]

theorem mem_quantaCandidates_sound {clock bitrate q : Nat} {t : BitTimings}
    (h : t ∈ quantaCandidates clock bitrate q) :
    timingValid clock bitrate t ∧ 1 + t.seg1 + t.seg2 = q := by
  unfold quantaCandidates at h
  by_cases hc : bitrate * (clock / (bitrate * q)) * q = clock ∧
      1 ≤ clock / (bitrate * q) ∧ clock / (bitrate * q) ≤ PRESCALER_MAX
  · rw [if_pos hc] at h
    obtain ⟨hp, hq, hs11, hs12, hs21, hs22⟩ := mem_splitCandidates_sound h
    obtain ⟨heq, hp1, hp2⟩ := hc
    refine ⟨⟨?_, ?_, ?_, hs11, hs12, hs21, hs22⟩, hq⟩
    · rw [hp, hq]; omega
    · rw [hp]; exact hp1
    · rw [hp]; exact hp2
  · rw [if_neg hc] at h
    exact absurd h (by simp)

theorem mem_quantaCandidates_complete {clock bitrate : Nat} (hb : 0 < bitrate)
    {t : BitTimings} (ht : timingValid clock bitrate t) :
    canonicalOf t ∈ quantaCandidates clock bitrate (1 + t.seg1 + t.seg2) := by
  obtain ⟨heq, hp1, hp2, hs11, hs12, hs21, hs22⟩ := ht
  set q := 1 + t.seg1 + t.seg2 with hqdef
  have hq0 : 0 < q := by omega
  have hbq : 0 < bitrate * q := Nat.mul_pos hb hq0
  have hdiv : clock / (bitrate * q) = t.prescaler := by
    rw [heq]
    rw [show bitrate * t.prescaler * q = bitrate * q * t.prescaler by ring]
    exact Nat.mul_div_cancel_left _ hbq
  have hcond : bitrate * (clock / (bitrate * q)) * q = clock ∧
      1 ≤ clock / (bitrate * q) ∧ clock / (bitrate * q) ≤ PRESCALER_MAX := by
    refine ⟨?_, ?_, ?_⟩
    · rw [hdiv, heq]
    · rw [hdiv]; exact hp1
    · rw [hdiv]; exact hp2
  unfold quantaCandidates
  rw [if_pos hcond]
  exact mem_splitCandidates_complete t hdiv.symm rfl hs11 hs12 hs21 hs22

theorem mem_allCandidates_sound {clock bitrate : Nat} {t : BitTimings}
    (h : t ∈ allCandidates clock bitrate) : timingValid clock bitrate t := by
  unfold allCandidates at h
  obtain ⟨q, _, hq⟩ := List.mem_flatMap.mp h
  exact (mem_quantaCandidates_sound hq).1

theorem mem_allCandidates_complete {clock bitrate : Nat} (hb : 0 < bitrate)
    {t : BitTimings} (ht : timingValid clock bitrate t) :
    canonicalOf t ∈ allCandidates clock bitrate := by
  unfold allCandidates
  refine List.mem_flatMap.mpr ⟨1 + t.seg1 + t.seg2, ?_, ?_⟩
  · refine List.mem_range.mpr ?_
    have := ht.2.2.2.2.1
    have := ht.2.2.2.2.2.2
    unfold SEG1_MAX SEG2_MAX at *
    omega
  · exact mem_quantaCandidates_complete hb ht

theorem pickFold_mem (ts : List BitTimings) :
    ∀ a : BitTimings,
      ts.foldl (fun acc c => if betterCandidate c acc then c else acc) a = a ∨
      ts.foldl (fun acc c => if betterCandidate c acc then c else acc) a ∈ ts := by
  induction ts with
  | nil => intro a; left; rfl
  | cons c cs ih =>
    intro a
    rw [List.foldl_cons]
    rcases ih (if betterCandidate c a then c else a) with h | h
    · rw [h]
      by_cases hb : betterCandidate c a
      · rw [if_pos hb]; right; exact List.mem_cons_self c cs
      · rw [if_neg hb]; left; rfl
    · right; exact List.mem_cons_of_mem c h

theorem pickBest_mem {l : List BitTimings} {t : BitTimings}
    (h : pickBest l = some t) : t ∈ l := by
  cases l with
  | nil => exact absurd h (by simp [pickBest])
  | cons c cs =>
    have h2 : cs.foldl (fun acc c => if betterCandidate c acc then c else acc) c = t :=
      Option.some.inj h
    rcases pickFold_mem cs c with hm | hm
    · rw [h2] at hm; rw [hm]; exact List.mem_cons_self c cs
    · rw [h2] at hm; exact List.mem_cons_of_mem c hm

theorem pickBest_of_ne_nil {l : List BitTimings} (h : l ≠ []) :
    ∃ t, pickBest l = some t := by
  cases l with
  | nil => exact absurd rfl h
  | cons c cs => exact ⟨_, rfl⟩

/-- C9: for every (clock, bitrate) pair that admits an exact integer
time-quanta solution within the hardware-supported ranges, the bit-timing
calculator returns parameters satisfying
`clock == bitrate * prescaler * (1 + seg1 + seg2)` exactly, with prescaler,
seg1 and seg2 each within their hardware-imposed ranges. -/
theorem calc_can_timings_complete_and_exact (clock bitrate : Nat)
    (hb : 0 < bitrate) (t : BitTimings) (ht : timingValid clock bitrate t) :
    ∃ u, calc_can_timings clock bitrate = some u ∧ timingValid clock bitrate u := by
  have hmem := mem_allCandidates_complete hb ht
  have hne : allCandidates clock bitrate ≠ [] := by
    intro hnil
    rw [hnil] at hmem
    exact absurd hmem (by simp)
  obtain ⟨u, hu⟩ := pickBest_of_ne_nil hne
  exact ⟨u, hu, mem_allCandidates_sound (pickBest_mem hu)⟩

/-- Witness for C9: clock 8 MHz and bitrate 500 kbit/s admit the exact
solution prescaler 1, seg1 13, seg2 2 (16 quanta), so the calculator returns
a valid solution there. -/
theorem calc_can_timings_complete_and_exact_witness :
    ∃ u, calc_can_timings 8000000 500000 = some u ∧ timingValid 8000000 500000 u :=
  calc_can_timings_complete_and_exact 8000000 500000 (by decide)
    ⟨1, 13, 2, 2⟩ (by decide)

/-! ## Transmit -/

theorem mailbox_write_frame (r : TxRegs) (n : Nat) (f : CanFrame) :
    (write_frame_mailbox r n f).mailbox n = ⟨false, true, some f⟩ :=
  match n with
  | 0 => rfl
  | 1 => rfl
  | _ + 2 => rfl

/-- C1: `transmit` is non-blocking and two-valued — it never returns
`Ok(Some(displaced_frame))`; when some mailbox is empty it writes the frame
into that mailbox with its transmit request set and returns `Ok(None)`; when
no mailbox is empty it returns `Err(WouldBlock)` and leaves every mailbox
untouched (no preemption of a pending frame). -/
theorem transmit_two_valued_nonpreempting (h : CanHandle) (regs : TxRegs) (f : CanFrame) :
    (∀ df, (Can.transmit h regs f).1 ≠ NbResult.ok (some df)) ∧
    (∀ n, find_free_mailbox regs = some n →
      (Can.transmit h regs f).1 = .ok none ∧
      (Can.transmit h regs f).2.1 = write_frame_mailbox regs n f ∧
      ((Can.transmit h regs f).2.1.mailbox n).frame = some f ∧
      ((Can.transmit h regs f).2.1.mailbox n).txRequest = true) ∧
    (find_free_mailbox regs = none →
      (Can.transmit h regs f).1 = .wouldBlock ∧ (Can.transmit h regs f).2.1 = regs) := by
  refine ⟨?_, ?_, ?_⟩
  · intro df hcontra
    unfold Can.transmit at hcontra
    cases hf : find_free_mailbox regs <;> rw [hf] at hcontra <;> simp at hcontra
  · intro n hn
    unfold Can.transmit
    rw [hn]
    refine ⟨rfl, rfl, ?_, ?_⟩
    · rw [mailbox_write_frame]
    · rw [mailbox_write_frame]
  · intro hn
    unfold Can.transmit
    rw [hn]
    exact ⟨rfl, rfl⟩

/-- Witness for C1: with all three mailboxes empty, mailbox 0 is found and
transmit returns `Ok(None)`; with all three occupied, transmit returns
`WouldBlock` and the pool is unchanged. -/
theorem transmit_two_valued_nonpreempting_witness :
    ((Can.transmit ⟨CanFifo.fifo0, USIZE_MAX⟩
        ⟨⟨true, false, none⟩, ⟨true, false, none⟩, ⟨true, false, none⟩⟩
        ⟨291, 1, [170]⟩).1 = .ok none) ∧
    ((Can.transmit ⟨CanFifo.fifo0, USIZE_MAX⟩
        ⟨⟨false, true, none⟩, ⟨false, true, none⟩, ⟨false, true, none⟩⟩
        ⟨291, 1, [170]⟩).1 = .wouldBlock) :=
  ⟨((transmit_two_valued_nonpreempting ⟨CanFifo.fifo0, USIZE_MAX⟩
      ⟨⟨true, false, none⟩, ⟨true, false, none⟩, ⟨true, false, none⟩⟩
      ⟨291, 1, [170]⟩).2.1 0 (by decide)).1,
   ((transmit_two_valued_nonpreempting ⟨CanFifo.fifo0, USIZE_MAX⟩
      ⟨⟨false, true, none⟩, ⟨false, true, none⟩, ⟨false, true, none⟩⟩
      ⟨291, 1, [170]⟩).2.2 (by decide)).1⟩

/-- C4: the failing input — a fresh handle (whose `last_mailbox_used` is
`usize::MAX`) and an all-empty mailbox pool.  `transmit` succeeds with
`Ok(None)` using mailbox 0, yet the handle's `last_mailbox_used` field is
still `usize::MAX` afterwards: `transmit` takes `&self` and cannot write the
bookkeeping field, so no successful enqueue ever updates it. -/
theorem transmit_never_updates_last_mailbox_used :
    (Can.transmit ⟨CanFifo.fifo0, USIZE_MAX⟩
        ⟨⟨true, false, none⟩, ⟨true, false, none⟩, ⟨true, false, none⟩⟩
        ⟨291, 1, [170]⟩).1 = .ok none ∧
    (Can.transmit ⟨CanFifo.fifo0, USIZE_MAX⟩
        ⟨⟨true, false, none⟩, ⟨true, false, none⟩, ⟨true, false, none⟩⟩
        ⟨291, 1, [170]⟩).2.2.last_mailbox_used = USIZE_MAX := by
  constructor
  · rfl
  · rfl

/-- C5: whenever the recorded last-mailbox index is stale (greater than 2 —
in particular on a fresh handle, where it is `usize::MAX`), `transmit_status`
returns `OtherError` irrespective of what the hardware status read would
yield. -/
theorem transmit_status_stale_returns_other_error (h : CanHandle)
    (hw : Nat → TxStatus) (hstale : h.last_mailbox_used > 2) :
    Can.transmit_status h hw = .otherError := by
  unfold Can.transmit_status
  rw [if_pos hstale]

/-- Witness for C5: a fresh handle carries `usize::MAX > 2`, and the status
query returns `OtherError` even against hardware that would report success. -/
theorem transmit_status_stale_returns_other_error_witness :
    Can.transmit_status ⟨CanFifo.fifo0, USIZE_MAX⟩ (fun _ => TxStatus.transmitted) =
      TxStatus.otherError :=
  transmit_status_stale_returns_other_error ⟨CanFifo.fifo0, USIZE_MAX⟩
    (fun _ => TxStatus.transmitted) (by decide)

/-! ## Receive -/

/-- C2: `try_recv` returns `WouldBlock` exactly when the bound FIFO's
pending-message count is zero; otherwise it returns a frame whose identifier,
DLC and payload come from the raw head-slot register fields, the payload
being the two 32-bit data words combined high:low into a 64-bit view sliced
to `dlc` bytes. -/
theorem try_recv_assembles_frame_from_registers (h : CanHandle) (rx : RxRegs) :
    ((rx.rfifo h.fifo.val).fmp = 0 → (Can.try_recv h rx).1 = .wouldBlock) ∧
    ((rx.rfifo h.fifo.val).fmp ≠ 0 →
      ∃ fr, (Can.try_recv h rx).1 = .ok fr ∧
        fr.id = (rx.rfifo h.fifo.val).stid ∧
        fr.dlc = (rx.rfifo h.fifo.val).dlc ∧
        fr.data = (List.range (rx.rfifo h.fifo.val).dlc).map
          (fun i => ((rx.rfifo h.fifo.val).rxmdhr * 2 ^ 32 +
            (rx.rfifo h.fifo.val).rxmdlr) / 2 ^ (8 * i) % 256)) := by
  constructor
  · intro h0
    unfold Can.try_recv
    rw [if_pos h0]
  · intro h0
    refine ⟨CanFrame.new_from_data_registers (rx.rfifo h.fifo.val).stid
      ((rx.rfifo h.fifo.val).rxmdhr * 2 ^ 32 + (rx.rfifo h.fifo.val).rxmdlr)
      (rx.rfifo h.fifo.val).dlc, ?_, rfl, rfl, rfl⟩
    unfold Can.try_recv
    rw [if_neg h0]

/-- Witness for C2: an empty FIFO 0 yields `WouldBlock`; a FIFO 0 holding one
message with identifier 291, DLC 2, low data word `0xBBAA` yields that frame. -/
theorem try_recv_assembles_frame_from_registers_witness :
    (Can.try_recv ⟨CanFifo.fifo0, USIZE_MAX⟩
        ⟨⟨0, 0, 0, 0, 0⟩, ⟨0, 0, 0, 0, 0⟩⟩).1 = .wouldBlock ∧
    ∃ fr, (Can.try_recv ⟨CanFifo.fifo0, USIZE_MAX⟩
        ⟨⟨1, 291, 2, 0, 48042⟩, ⟨0, 0, 0, 0, 0⟩⟩).1 = .ok fr ∧
      fr.id = 291 ∧ fr.dlc = 2 ∧
      fr.data = (List.range 2).map (fun i => (0 * 2 ^ 32 + 48042) / 2 ^ (8 * i) % 256) :=
  ⟨(try_recv_assembles_frame_from_registers ⟨CanFifo.fifo0, USIZE_MAX⟩
      ⟨⟨0, 0, 0, 0, 0⟩, ⟨0, 0, 0, 0, 0⟩⟩).1 (by decide),
   (try_recv_assembles_frame_from_registers ⟨CanFifo.fifo0, USIZE_MAX⟩
      ⟨⟨1, 291, 2, 0, 48042⟩, ⟨0, 0, 0, 0, 0⟩⟩).2 (by decide)⟩

/-- C7: on every successful `try_recv` the register-access trace is exactly
the pending-count read, the DLC read, the identifier read, the two data-word
reads, and then a single `RFOM` release write — so the release command is
issued exactly once and only after every data field has been read; on the
`WouldBlock` path the trace contains no release write at all. -/
theorem try_recv_release_exactly_once_after_reads (h : CanHandle) (rx : RxRegs) :
    ((rx.rfifo h.fifo.val).fmp ≠ 0 →
      (Can.try_recv h rx).2 =
        [.readFmp, .readDlc, .readStid, .readDhr, .readDlr, .writeRfom] ∧
      (Can.try_recv h rx).2.count RxEvent.writeRfom = 1) ∧
    ((rx.rfifo h.fifo.val).fmp = 0 →
      (Can.try_recv h rx).2 = [.readFmp] ∧
      (Can.try_recv h rx).2.count RxEvent.writeRfom = 0) := by
  constructor
  · intro h0
    have htr : (Can.try_recv h rx).2 =
        [.readFmp, .readDlc, .readStid, .readDhr, .readDlr, .writeRfom] := by
      unfold Can.try_recv
      rw [if_neg h0]
    exact ⟨htr, by rw [htr]; decide⟩
  · intro h0
    have htr : (Can.try_recv h rx).2 = [.readFmp] := by
      unfold Can.try_recv
      rw [if_pos h0]
    exact ⟨htr, by rw [htr]; decide⟩

/-- Witness for C7: both branches at concrete FIFO states. -/
theorem try_recv_release_exactly_once_after_reads_witness :
    (Can.try_recv ⟨CanFifo.fifo0, USIZE_MAX⟩
        ⟨⟨1, 291, 2, 0, 48042⟩, ⟨0, 0, 0, 0, 0⟩⟩).2.count RxEvent.writeRfom = 1 ∧
    (Can.try_recv ⟨CanFifo.fifo0, USIZE_MAX⟩
        ⟨⟨0, 0, 0, 0, 0⟩, ⟨0, 0, 0, 0, 0⟩⟩).2.count RxEvent.writeRfom = 0 :=
  ⟨((try_recv_release_exactly_once_after_reads ⟨CanFifo.fifo0, USIZE_MAX⟩
      ⟨⟨1, 291, 2, 0, 48042⟩, ⟨0, 0, 0, 0, 0⟩⟩).1 (by decide)).2,
   ((try_recv_release_exactly_once_after_reads ⟨CanFifo.fifo0, USIZE_MAX⟩
      ⟨⟨0, 0, 0, 0, 0⟩, ⟨0, 0, 0, 0, 0⟩⟩).2 (by decide)).2⟩

/-! ## Filter installation -/

/-- C6: for every filter and every starting register state, `add_filter`
performs its register writes in exactly the order set-filter-init, write
scale, write identifier-value register, write identifier-mask register, write
match mode, associate the bank with the target FIFO, activate the bank, clear
filter-init — and the filter-init suspend flag is never left set when
`add_filter` returns. -/
theorem add_filter_write_order_and_clears_finit (h : CanHandle) (r : FilterRegs)
    (flt : CanFilter) :
    (Can.add_filter h r flt).2 =
      [.setFinit true,
       .setScale flt.bank flt.bitModeBit,
       .writeFr (2 * flt.bank) flt.id_value,
       .writeFr (2 * flt.bank + 1) flt.id_mask,
       .setMode flt.bank flt.modeBit,
       .setFifoAssoc flt.bank h.fifo.val_bool,
       .setActive flt.bank true,
       .setFinit false] ∧
    (Can.add_filter h r flt).1.finit = false :=
  ⟨rfl, rfl⟩

/-! ## Construction -/

/-- C3: construction fails exactly when the bit-timing calculator finds no
solution, and `InvalidTimings` is the only error value it can fail with.
(After a successful construction no operation can raise `InvalidTimings`:
`transmit` and `try_recv` return `NbResult _ CanError`, `transmit_status`
returns a `TxStatus`, and `add_filter` returns only register state — none of
their result types mentions `CanInitError`.) -/
theorem new_fails_iff_no_timing_solution (clock bitrate : Nat) (fifo : CanFifo)
    (mode : CanMode) (s : InitState) :
    ((∃ e, (Can.new clock bitrate fifo mode s).1 = .error e) ↔
      calc_can_timings clock bitrate = none) ∧
    (∀ e, (Can.new clock bitrate fifo mode s).1 = .error e → e = .invalidTimings) := by
  constructor
  · constructor
    · rintro ⟨e, he⟩
      cases hc : calc_can_timings clock bitrate with
      | none => rfl
      | some t =>
        unfold Can.new at he
        rw [hc] at he
        exact absurd he (by simp)
    · intro hc
      refine ⟨.invalidTimings, ?_⟩
      unfold Can.new
      rw [hc]
  · intro e _
    cases e
    rfl

/-- Witness for C3: at clock 8 MHz and bitrate 1 bit/s no quanta count within
the supported ranges divides the ratio with an in-range prescaler, so
construction fails. -/
theorem new_fails_iff_no_timing_solution_witness :
    ∃ e, (Can.new 8000000 1 CanFifo.fifo0 CanMode.normal ⟨false, none, none⟩).1 =
      Except.error e :=
  (new_fails_iff_no_timing_solution 8000000 1 CanFifo.fifo0 CanMode.normal
    ⟨false, none, none⟩).1.mpr (by decide)

/-- C8 counterexample: at clock 8 MHz and bitrate 1 bit/s, `Can::new` enters
Initialization mode, the calculator fails, and `new` returns
`Err(InvalidTimings)` without ever leaving Initialization mode — the
peripheral is still in Initialization mode when `new` returns, refuting
"whenever Can::new returns, the peripheral has left Initialization mode". -/
theorem new_error_path_leaves_init_mode :
    (Can.new 8000000 1 CanFifo.fifo0 CanMode.normal ⟨false, none, none⟩).1 =
      Except.error CanInitError.invalidTimings ∧
    (Can.new 8000000 1 CanFifo.fifo0 CanMode.normal ⟨false, none, none⟩).2.1.initMode =
      true := by
  constructor
  · rfl
  · rfl

/-- C8 (amended): whenever `Can::new` returns `Ok`, its mode-controller trace
is exactly enter-init, then the single timing-and-operating-mode
configuration write, then leave-init — so every configuration write happens
between entering and leaving Initialization mode, and the peripheral has left
Initialization mode on return. -/
theorem new_ok_brackets_config_in_init_mode (clock bitrate : Nat) (fifo : CanFifo)
    (mode : CanMode) (s : InitState) (h : CanHandle)
    (hok : (Can.new clock bitrate fifo mode s).1 = .ok h) :
    (∃ t, calc_can_timings clock bitrate = some t ∧
      (Can.new clock bitrate fifo mode s).2.2 =
        [.enterInit, .setBitTimingAndMode t mode, .leaveInit]) ∧
    (Can.new clock bitrate fifo mode s).2.1.initMode = false := by
  cases hc : calc_can_timings clock bitrate with
  | none =>
    exfalso
    unfold Can.new at hok
    rw [hc] at hok
    exact absurd hok (by simp)
  | some t =>
    constructor
    · refine ⟨t, rfl, ?_⟩
      unfold Can.new
      rw [hc]
    · unfold Can.new
      rw [hc]

/-- Witness for C8 (amended): construction at clock 8 MHz, bitrate
500 kbit/s succeeds, and its trace is the enter-configure-leave bracket. -/
theorem new_ok_brackets_config_in_init_mode_witness :
    (∃ t, calc_can_timings 8000000 500000 = some t ∧
      (Can.new 8000000 500000 CanFifo.fifo0 CanMode.normal ⟨false, none, none⟩).2.2 =
        [.enterInit, .setBitTimingAndMode t CanMode.normal, .leaveInit]) ∧
    (Can.new 8000000 500000 CanFifo.fifo0 CanMode.normal
      ⟨false, none, none⟩).2.1.initMode = false :=
  new_ok_brackets_config_in_init_mode 8000000 500000 CanFifo.fifo0 CanMode.normal
    ⟨false, none, none⟩ ⟨CanFifo.fifo0, USIZE_MAX⟩ rfl

/-! ## Handle invariant over the public operations -/

/-- The hardware state visible to the public operations: the transmit
mailbox pool, the two receive FIFOs, the filter register file, and the
per-mailbox hardware transmit status read by `transmit_status`. -/
structure World where
  tx : TxRegs
  rx : RxRegs
  filt : FilterRegs
  hwStatus : Nat → TxStatus

/-- One invocation of a public operation of the handle. -/
inductive Op
  | transmitOp (f : CanFrame)
  | tryRecvOp
  | addFilterOp (flt : CanFilter)
  | txStatusOp

/-- Modelled from the spec: the hardware effect of the release-one-message
command — the pending count of the bound FIFO is decremented (the head-slot
fields exposed afterwards are hardware-determined and left unmodelled). -/
def releaseOne (rx : RxRegs) (n : Nat) : RxRegs :=
  if n = 0 then { rx with f0 := { rx.f0 with fmp := rx.f0.fmp - 1 } }
  else { rx with f1 := { rx.f1 with fmp := rx.f1.fmp - 1 } }

/-- Run one public operation against the handle and the hardware state.  All
four methods take `&self`; `transmit` is the only one whose embedding even
returns the handle, and it returns it unchanged. -/
def runOp (h : CanHandle) (w : World) : Op → CanHandle × World
  | .transmitOp f =>
    let r := Can.transmit h w.tx f
    (r.2.2, { w with tx := r.2.1 })
  | .tryRecvOp =>
    if (w.rx.rfifo h.fifo.val).fmp = 0 then (h, w)
    else (h, { w with rx := releaseOne w.rx h.fifo.val })
  | .addFilterOp flt => (h, { w with filt := (Can.add_filter h w.filt flt).1 })
  | .txStatusOp => (h, w)

/-- Run a sequence of public operations. -/
def runOps (h : CanHandle) (w : World) : List Op → CanHandle × World
  | [] => (h, w)
  | op :: ops =>
    let p := runOp h w op
    runOps p.1 p.2 ops

theorem runOp_fst (h : CanHandle) (w : World) (op : Op) : (runOp h w op).1 = h := by
  cases op with
  | transmitOp f =>
    show (Can.transmit h w.tx f).2.2 = h
    unfold Can.transmit
    cases hf : find_free_mailbox w.tx <;> rfl
  | tryRecvOp =>
    unfold runOp
    by_cases h0 : (w.rx.rfifo h.fifo.val).fmp = 0
    · rw [if_pos h0]
    · rw [if_neg h0]
  | addFilterOp flt => rfl
  | txStatusOp => rfl

theorem runOps_fst (ops : List Op) : ∀ (h : CanHandle) (w : World),
    (runOps h w ops).1 = h := by
  induction ops with
  | nil => intro h w; rfl
  | cons op ops ih =>
    intro h w
    show (runOps (runOp h w op).1 (runOp h w op).2 ops).1 = h
    rw [ih, runOp_fst]

/-- C10: for every handle built by `Can::new`, the `last_mailbox_used` field
equals `usize::MAX` from construction onward and is preserved by every
sequence of public operations (all four take `&self` and write no handle
field), so `transmit_status` returns `OtherError` on every call over the
handle's entire lifetime, whatever the hardware would report. -/
theorem last_mailbox_used_invariant (clock bitrate : Nat) (fifo : CanFifo)
    (mode : CanMode) (s : InitState) (h : CanHandle)
    (hok : (Can.new clock bitrate fifo mode s).1 = .ok h) :
    ∀ (ops : List Op) (w : World),
      (runOps h w ops).1.last_mailbox_used = USIZE_MAX ∧
      ∀ hw, Can.transmit_status (runOps h w ops).1 hw = .otherError := by
  have hinit : h.last_mailbox_used = USIZE_MAX := by
    cases hc : calc_can_timings clock bitrate with
    | none =>
      exfalso
      unfold Can.new at hok
      rw [hc] at hok
      exact absurd hok (by simp)
    | some t =>
      unfold Can.new at hok
      rw [hc] at hok
      have hh : ({ fifo := fifo, last_mailbox_used := USIZE_MAX } : CanHandle) = h :=
        Except.ok.inj hok
      rw [← hh]
  intro ops w
  have hfst : (runOps h w ops).1 = h := runOps_fst ops h w
  have hval : (runOps h w ops).1.last_mailbox_used = USIZE_MAX := by rw [hfst, hinit]
  refine ⟨hval, fun hw => ?_⟩
  unfold Can.transmit_status
  rw [if_pos (by rw [hval]; decide)]

/-- Witness for C10: a handle built at clock 8 MHz, bitrate 500 kbit/s,
driven through a transmit, a receive, a filter installation and a status
query, still carries `usize::MAX` and still reports `OtherError`. -/
theorem last_mailbox_used_invariant_witness :
    (runOps ⟨CanFifo.fifo0, USIZE_MAX⟩
      ⟨⟨⟨true, false, none⟩, ⟨true, false, none⟩, ⟨true, false, none⟩⟩,
       ⟨⟨1, 291, 2, 0, 48042⟩, ⟨0, 0, 0, 0, 0⟩⟩,
       ⟨false, fun _ => false, fun _ => 0, fun _ => false, fun _ => false, fun _ => false⟩,
       fun _ => TxStatus.transmitted⟩
      [.transmitOp ⟨291, 1, [170]⟩, .tryRecvOp, .addFilterOp ⟨0, false, false, 0, 0⟩,
       .txStatusOp]).1.last_mailbox_used = USIZE_MAX ∧
    ∀ hw, Can.transmit_status
      (runOps ⟨CanFifo.fifo0, USIZE_MAX⟩
        ⟨⟨⟨true, false, none⟩, ⟨true, false, none⟩, ⟨true, false, none⟩⟩,
         ⟨⟨1, 291, 2, 0, 48042⟩, ⟨0, 0, 0, 0, 0⟩⟩,
         ⟨false, fun _ => false, fun _ => 0, fun _ => false, fun _ => false, fun _ => false⟩,
         fun _ => TxStatus.transmitted⟩
        [.transmitOp ⟨291, 1, [170]⟩, .tryRecvOp, .addFilterOp ⟨0, false, false, 0, 0⟩,
         .txStatusOp]).1 hw = .otherError :=
  last_mailbox_used_invariant 8000000 500000 CanFifo.fifo0 CanMode.normal
    ⟨false, none, none⟩ ⟨CanFifo.fifo0, USIZE_MAX⟩ rfl
    [.transmitOp ⟨291, 1, [170]⟩, .tryRecvOp, .addFilterOp ⟨0, false, false, 0, 0⟩,
     .txStatusOp]
    ⟨⟨⟨true, false, none⟩, ⟨true, false, none⟩, ⟨true, false, none⟩⟩,
     ⟨⟨1, 291, 2, 0, 48042⟩, ⟨0, 0, 0, 0, 0⟩⟩,
     ⟨false, fun _ => false, fun _ => 0, fun _ => false, fun _ => false, fun _ => false⟩,
     fun _ => TxStatus.transmitted⟩

end Ch32Can
